import Mathlib

/-!
Verification of the lexer front end of `oas-lint-rs`: a position-tracking
character stream (`src/parser/stream.rs`) and a tokenizer (`src/parser/scanner.rs`)
layered on top of it.  The Rust code is shallowly embedded: the mutable
`Stream` / `Scanner` structs become records, and each `next()` method becomes a
pure function returning the produced value together with the updated record.
The input `&str` is modelled as a `List Char` of Unicode scalar values, and the
byte offsets of `CharIndices` are reconstructed with `Char.utf8Size`.
-/

namespace OasLint

/-- `Position` from `src/parser/mod.rs`: byte offset, 1-based line, 1-based column. -/
structure Position where
  offset : Nat
  line : Nat
  col : Nat
deriving DecidableEq, Repr

/-- The `(byte_offset, char)` pairs produced by `str::char_indices`, starting at
byte offset `i`. -/
def charIndices : List Char → Nat → List (Nat × Char)
  | [], _ => []
  | c :: cs, i => (i, c) :: charIndices cs (i + c.utf8Size)

/-- `Stream` from `src/parser/stream.rs`: the remaining `CharIndices` cursor,
the running position counters, the one-slot pushback `peek`, and the
pending-line-break flag. -/
structure Stream where
  char_indices : List (Nat × Char)
  col : Nat
  offset : Nat
  line : Nat
  peek : Option (Nat × Char)
  had_linebreak : Bool
deriving DecidableEq, Repr

/-- `Stream::new`. -/
def Stream.new (data : List Char) : Stream :=
  { char_indices := charIndices data 0
    col := 0
    offset := 0
    line := 1
    peek := none
    had_linebreak := false }

/-- `Stream::get_position`. -/
def Stream.get_position (s : Stream) : Position :=
  { offset := s.offset, line := s.line, col := s.col }

/-- `Stream::next_internal`: take the pushback slot if occupied, else pull from
the cursor. -/
def Stream.next_internal (s : Stream) : Option (Nat × Char) × Stream :=
  match s.peek with
  | none =>
    match s.char_indices with
    | [] => (none, s)
    | ic :: rest => (some ic, { s with char_indices := rest })
  | some ic => (some ic, { s with peek := none })

/-- `Stream::update_pos`. -/
def Stream.update_pos (s : Stream) (offset : Nat) : Stream :=
  if s.had_linebreak then
    { s with offset := offset, line := s.line + 1, col := 1, had_linebreak := false }
  else
    { s with offset := offset, col := s.col + 1 }

/-- `Stream::next`: line-ending normalization (`\r`, `\n`, `\r\n` all become one
logical `'\n'`) with position bookkeeping. -/
def Stream.next (s : Stream) : Option Char × Stream :=
  match s.next_internal with
  | (some (i, c), s1) =>
    if c = '\r' then
      match (s1.update_pos i).next_internal with
      | (some (j, c2), s3) =>
        if c2 = '\n' then (some '\n', { s3 with had_linebreak := true })
        else (some '\n', { s3 with peek := some (j, c2), had_linebreak := true })
      | (none, s3) => (some '\n', { s3 with had_linebreak := true })
    else if c = '\n' then
      (some '\n', { s1.update_pos i with had_linebreak := true })
    else
      (some c, s1.update_pos i)
  | (none, s1) => (none, s1)

/-- Number of raw characters still buffered in the stream (cursor plus pushback
slot); every successful `next` strictly decreases it. -/
def Stream.size (s : Stream) : Nat :=
  s.char_indices.length + (match s.peek with | some _ => 1 | none => 0)

/-- The raw `(byte_offset, char)` pairs the stream has yet to hand out, pushback
slot first. -/
def Stream.pending (s : Stream) : List (Nat × Char) :=
  (match s.peek with | some x => [x] | none => []) ++ s.char_indices

/-- Invariant of stream states reachable from `Stream.new`: the line counter is
1-based, and the raw offsets still to be handed out are sorted and bounded below
by the current offset. -/
def Stream.Inv (s : Stream) : Prop :=
  1 ≤ s.line ∧ List.Pairwise (fun a b => a.1 ≤ b.1) s.pending ∧
    ∀ x ∈ s.pending, s.offset ≤ x.1

/-- Fuel-indexed iteration of `Stream.next`, recording each produced character
with the position the stream reports for it.  With enough fuel this is the full
character sequence of the input. -/
def Stream.lexFuel : Nat → Stream → List (Char × Position)
  | 0, _ => []
  | fuel + 1, s =>
    match s.next with
    | (some c, s') => (c, s'.get_position) :: Stream.lexFuel fuel s'
    | (none, _) => []

/-- Lex a whole string through the `Stream`, with fuel large enough to exhaust it. -/
def streamLex (str : String) : List (Char × Position) :=
  Stream.lexFuel (str.length + 1) (Stream.new str.toList)

theorem Stream.next_internal_some {s s1 : Stream} {x : Nat × Char}
    (h : s.next_internal = (some x, s1)) :
    s1.peek = none ∧ s1.size + 1 = s.size ∧ s1.col = s.col ∧ s1.offset = s.offset ∧
      s1.line = s.line ∧ s1.had_linebreak = s.had_linebreak ∧
      s.pending = x :: s1.pending := by
  rcases s with ⟨ci, col, off, line, peek, hlb⟩
  cases peek with
  | some ic =>
    simp only [Stream.next_internal] at h
    obtain ⟨hx, rfl⟩ := Prod.mk.inj h
    obtain rfl := Option.some.inj hx
    simp [Stream.size, Stream.pending]
  | none =>
    cases ci with
    | nil => simp [Stream.next_internal] at h
    | cons hd tl =>
      simp only [Stream.next_internal] at h
      obtain ⟨hx, rfl⟩ := Prod.mk.inj h
      obtain rfl := Option.some.inj hx
      simp [Stream.size, Stream.pending]

theorem Stream.next_internal_none {s s1 : Stream}
    (h : s.next_internal = (none, s1)) : s1 = s ∧ s.size = 0 := by
  rcases s with ⟨ci, col, off, line, peek, hlb⟩
  cases peek with
  | some ic => simp [Stream.next_internal] at h
  | none =>
    cases ci with
    | nil =>
      simp only [Stream.next_internal] at h
      obtain ⟨-, rfl⟩ := Prod.mk.inj h
      simp [Stream.size]
    | cons hd tl => simp [Stream.next_internal] at h

theorem Stream.update_pos_fields (s : Stream) (i : Nat) :
    (s.update_pos i).char_indices = s.char_indices ∧ (s.update_pos i).peek = s.peek ∧
      (s.update_pos i).size = s.size ∧ (s.update_pos i).offset = i ∧
      (s.update_pos i).had_linebreak = false ∧
      (s.had_linebreak = true → (s.update_pos i).line = s.line + 1 ∧ (s.update_pos i).col = 1) ∧
      (s.had_linebreak = false → (s.update_pos i).line = s.line ∧ (s.update_pos i).col = s.col + 1) ∧
      (s.update_pos i).pending = s.pending := by
  rcases s with ⟨ci, col, off, line, peek, hlb⟩
  cases hlb <;> simp [Stream.update_pos, Stream.size, Stream.pending]

/-- Master case analysis of a successful `Stream.next`: the buffered size
strictly decreases, `'\r'` is never emitted, the new offset is the raw byte
offset handed out by `next_internal`, and line/column advance exactly as the
pending-line-break flag dictates. -/
theorem Stream.next_some_spec {s s' : Stream} {c : Char}
    (h : s.next = (some c, s')) :
    s'.size < s.size ∧ c ≠ '\r' ∧
      (∀ i c0 s1, s.next_internal = (some (i, c0), s1) → s'.offset = i) ∧
      (s.had_linebreak = true → s'.line = s.line + 1 ∧ s'.col = 1) ∧
      (s.had_linebreak = false → s'.line = s.line ∧ s'.col = s.col + 1) := by
  unfold Stream.next at h
  split at h
  case h_2 s1 heq =>
    exact absurd h (by simp)
  case h_1 i c0 s1 heq =>
  obtain ⟨hp1, hsz1, hc1, ho1, hl1, hh1, hpd1⟩ := Stream.next_internal_some heq
  obtain ⟨hci2, hp2, hsz2, ho2, hh2, hlbt, hlbf, hpd2⟩ := Stream.update_pos_fields s1 i
  have hoffs : ∀ i' c0' s1', s.next_internal = (some (i', c0'), s1') →
      i' = i := by
    intro i' c0' s1' hint
    rw [heq] at hint
    simp only [Prod.mk.injEq, Option.some.injEq] at hint
    exact hint.1.1.symm
  split at h
  case isTrue hr =>
    subst hr
    split at h
    case h_1 j c2 s3 heq2 =>
      obtain ⟨hp3, hsz3, hc3, ho3, hl3, hh3, hpd3⟩ := Stream.next_internal_some heq2
      split at h
      case isTrue hn =>
        injection h with h1 h2
        injection h1 with h1
        subst h1
        subst h2
        refine ⟨?_, by decide, ?_, ?_, ?_⟩
        · simp only [Stream.size] at hsz3 hsz2 hsz1 ⊢
          omega
        · intro i' c0' s1' hint
          simp [hoffs i' c0' s1' hint, ho3, ho2]
        · intro hb
          have := hlbt (by rw [hh1, hb])
          exact ⟨by simp [hl3, this.1, hl1], by simp [hc3, this.2]⟩
        · intro hb
          have := hlbf (by rw [hh1, hb])
          exact ⟨by simp [hl3, this.1, hl1], by simp [hc3, this.2, hc1]⟩
      case isFalse hn =>
        injection h with h1 h2
        injection h1 with h1
        subst h1
        subst h2
        refine ⟨?_, by decide, ?_, ?_, ?_⟩
        · simp only [Stream.size, hp3] at hsz3 hsz2 hsz1 ⊢
          omega
        · intro i' c0' s1' hint
          simp [hoffs i' c0' s1' hint, ho3, ho2]
        · intro hb
          have := hlbt (by rw [hh1, hb])
          exact ⟨by simp [hl3, this.1, hl1], by simp [hc3, this.2]⟩
        · intro hb
          have := hlbf (by rw [hh1, hb])
          exact ⟨by simp [hl3, this.1, hl1], by simp [hc3, this.2, hc1]⟩
    case h_2 s3 heq2 =>
      obtain ⟨rfl, hz⟩ := Stream.next_internal_none heq2
      injection h with h1 h2
      injection h1 with h1
      subst h1
      subst h2
      refine ⟨?_, by decide, ?_, ?_, ?_⟩
      · simp only [Stream.size] at hsz2 hsz1 hz ⊢
        omega
      · intro i' c0' s1' hint
        simp [hoffs i' c0' s1' hint, ho2]
      · intro hb
        have := hlbt (by rw [hh1, hb])
        exact ⟨by simp [this.1, hl1], by simp [this.2]⟩
      · intro hb
        have := hlbf (by rw [hh1, hb])
        exact ⟨by simp [this.1, hl1], by simp [this.2, hc1]⟩
  case isFalse hr =>
    split at h
    case isTrue hn =>
      subst hn
      injection h with h1 h2
      injection h1 with h1
      subst h1
      subst h2
      refine ⟨?_, by decide, ?_, ?_, ?_⟩
      · simp only [Stream.size] at hsz2 hsz1 ⊢
        omega
      · intro i' c0' s1' hint
        simp [hoffs i' c0' s1' hint, ho2]
      · intro hb
        have := hlbt (by rw [hh1, hb])
        exact ⟨by simp [this.1, hl1], by simp [this.2]⟩
      · intro hb
        have := hlbf (by rw [hh1, hb])
        exact ⟨by simpa [hl1] using this.1, by simpa [hc1] using this.2⟩
    case isFalse hn =>
      injection h with h1 h2
      injection h1 with h1
      subst h1
      subst h2
      refine ⟨?_, hr, ?_, ?_, ?_⟩
      · simp only [Stream.size] at hsz2 hsz1 ⊢
        omega
      · intro i' c0' s1' hint
        simp [hoffs i' c0' s1' hint, ho2]
      · intro hb
        have := hlbt (by rw [hh1, hb])
        exact ⟨hl1 ▸ this.1, this.2⟩
      · intro hb
        have := hlbf (by rw [hh1, hb])
        exact ⟨hl1 ▸ this.1, hc1 ▸ this.2⟩

/-- How a successful `Stream.next` consumes the pending raw characters: the
head is consumed and its byte offset recorded, and at most one further raw
character (the second half of a `\r\n` pair) is consumed as well. -/
theorem Stream.next_pending_spec {s s' : Stream} {c : Char}
    (h : s.next = (some c, s')) :
    ∃ x rest, s.pending = x :: rest ∧ s'.offset = x.1 ∧
      (s'.pending = rest ∨ ∃ y rest2, rest = y :: rest2 ∧ s'.pending = rest2) := by
  unfold Stream.next at h
  split at h
  case h_2 s1 heq =>
    exact absurd h (by simp)
  case h_1 i c0 s1 heq =>
  obtain ⟨hp1, hsz1, hc1, ho1, hl1, hh1, hpd1⟩ := Stream.next_internal_some heq
  obtain ⟨hci2, hp2, hsz2, ho2, hh2, hlbt, hlbf, hpd2⟩ := Stream.update_pos_fields s1 i
  split at h
  case isTrue hr =>
    subst hr
    split at h
    case h_1 j c2 s3 heq2 =>
      obtain ⟨hp3, hsz3, hc3, ho3, hl3, hh3, hpd3⟩ := Stream.next_internal_some heq2
      split at h
      case isTrue hn =>
        injection h with h1 h2
        subst h2
        refine ⟨(i, '\r'), s1.pending, hpd1, ?_, Or.inr ⟨(j, c2), s3.pending, ?_, ?_⟩⟩
        · simpa [ho3] using ho2
        · rw [← hpd2]
          exact hpd3
        · simp [Stream.pending]
      case isFalse hn =>
        injection h with h1 h2
        subst h2
        refine ⟨(i, '\r'), s1.pending, hpd1, ?_, Or.inl ?_⟩
        · simpa [ho3] using ho2
        · have : s1.pending = (j, c2) :: s3.pending := by
            rw [← hpd2]
            exact hpd3
          rw [this]
          simp [Stream.pending, hp3]
    case h_2 s3 heq2 =>
      obtain ⟨rfl, hz⟩ := Stream.next_internal_none heq2
      injection h with h1 h2
      subst h2
      refine ⟨(i, '\r'), s1.pending, hpd1, by simpa using ho2, Or.inl ?_⟩
      rw [← hpd2]
      simp [Stream.pending]
  case isFalse hr =>
    split at h
    case isTrue hn =>
      injection h with h1 h2
      subst h2
      refine ⟨(i, c0), s1.pending, hpd1, by simpa using ho2, Or.inl ?_⟩
      rw [← hpd2]
      simp [Stream.pending]
    case isFalse hn =>
      injection h with h1 h2
      subst h2
      exact ⟨(i, c0), s1.pending, hpd1, ho2, Or.inl hpd2⟩

theorem charIndices_sorted (cs : List Char) (i : Nat) :
    List.Pairwise (fun a b => a.1 ≤ b.1) (charIndices cs i) ∧
      ∀ x ∈ charIndices cs i, i ≤ x.1 := by
  induction cs generalizing i with
  | nil => simp [charIndices]
  | cons c cs ih =>
    obtain ⟨ih1, ih2⟩ := ih (i + c.utf8Size)
    refine ⟨List.Pairwise.cons ?_ ih1, ?_⟩
    · intro x hx
      exact Nat.le_trans (Nat.le_add_right i c.utf8Size) (ih2 x hx)
    · intro x hx
      rcases List.mem_cons.mp hx with rfl | hx
      · exact Nat.le_refl i
      · exact Nat.le_trans (Nat.le_add_right i c.utf8Size) (ih2 x hx)

/-- Freshly created streams satisfy the invariant. -/
theorem Stream.inv_new (data : List Char) : (Stream.new data).Inv := by
  obtain ⟨h1, h2⟩ := charIndices_sorted data 0
  refine ⟨Nat.le_refl 1, ?_, ?_⟩
  · simpa [Stream.new, Stream.pending] using h1
  · intro x hx
    exact Nat.zero_le x.1

/-- `Stream.next` preserves the invariant, and the reported offset never
decreases. -/
theorem Stream.next_inv {s s' : Stream} {c : Char}
    (h : s.next = (some c, s')) (hi : s.Inv) : s'.Inv ∧ s.offset ≤ s'.offset := by
  obtain ⟨hline, hpw, hbound⟩ := hi
  obtain ⟨-, -, -, hlbt, hlbf⟩ := Stream.next_some_spec h
  obtain ⟨x, rest, hpd, hoff, hrest⟩ := Stream.next_pending_spec h
  have hline' : 1 ≤ s'.line := by
    cases hb : s.had_linebreak with
    | true =>
      rw [(hlbt hb).1]
      omega
    | false =>
      rw [(hlbf hb).1]
      exact hline
  have hxle : ∀ z ∈ rest, x.1 ≤ z.1 := by
    have := hpd ▸ hpw
    exact (List.pairwise_cons.mp this).1
  refine ⟨⟨hline', ?_, ?_⟩, ?_⟩
  · have htail : List.Pairwise (fun a b => a.1 ≤ b.1) rest :=
      (List.pairwise_cons.mp (hpd ▸ hpw)).2
    rcases hrest with hr | ⟨y, rest2, hr2, hr⟩
    · exact hr ▸ htail
    · rw [hr]
      exact (List.pairwise_cons.mp (hr2 ▸ htail)).2
  · intro z hz
    rw [hoff]
    rcases hrest with hr | ⟨y, rest2, hr2, hr⟩
    · exact hxle z (hr ▸ hz)
    · exact hxle z (hr2 ▸ List.mem_cons_of_mem y (hr ▸ hz))
  · rw [hoff]
    exact hbound x (hpd ▸ List.mem_cons_self x rest)

/-- The single-quote character `'`, written via its code point. -/
def singleQuoteChar : Char := Char.ofNat 39

/-- `TokenType` from `src/parser/scanner.rs` (the two commented-out
block-literal variants are omitted, as in the source). -/
inductive TokenType where
  | Spaces (count : Nat)
  | QuestionMark
  | Dash
  | Newline
  | Colon
  | LeftBraket
  | RightBraket
  | LeftSqBraket
  | RightSqBraket
  | DoubleQuote
  | SingleQuote
  | String (s : String)
deriving DecidableEq, Repr

/-- `Token` from `src/parser/scanner.rs`. -/
structure Token where
  pos : Position
  content : TokenType
deriving DecidableEq, Repr

/-- `Scanner` from `src/parser/scanner.rs`. -/
structure Scanner where
  data : List Char
  stream : Stream
  peeked_char : Option Char
  in_double_quote : Bool
  in_single_quote : Bool
deriving DecidableEq, Repr

/-- `Scanner::new`. -/
def Scanner.new (data : List Char) : Scanner :=
  { data := data
    stream := Stream.new data
    peeked_char := none
    in_double_quote := false
    in_single_quote := false }

/-- The character-acquisition step at the top of `Scanner::next`: prefer the
pushed-back character (with the stream's current position), else pull a fresh
character from the stream (and report its position). -/
def Scanner.acquire (sc : Scanner) : Option Char × Position × Scanner :=
  match sc.peeked_char with
  | some cc => (some cc, sc.stream.get_position, { sc with peeked_char := none })
  | none =>
    match sc.stream.next with
    | (cc, st) => (cc, st.get_position, { sc with stream := st })

/-- The `while let` loop inside `Scanner::create_indent`: keep pulling
characters while they are spaces, counting them; stop at the first non-space
character (returned for pushback) or at end of input. -/
def Scanner.indentLoop (st : Stream) (count : Nat) : Stream × Option Char × Nat :=
  match h : st.next with
  | (some c, st') =>
    if c = ' ' then Scanner.indentLoop st' (count + 1)
    else (st', some c, count)
  | (none, st') => (st', none, count)
termination_by st.size
decreasing_by exact (Stream.next_some_spec h).1

/-- `Scanner::create_indent`: count the run of spaces starting with the one
already consumed, push the terminating non-space character back, and emit
`Spaces(count)` at the position of the first space. -/
def Scanner.create_indent (sc : Scanner) (pos : Position) : Option Token × Scanner :=
  match Scanner.indentLoop sc.stream 1 with
  | (st, pushback, count) =>
    (some ⟨pos, TokenType.Spaces count⟩,
      { sc with stream := st, peeked_char := pushback })

/-- The classification `match` at the heart of `Scanner::next` (first matching
rule wins); `sc` supplies the quote flags consulted by the guards, `sc1` is the
scanner state after character acquisition. -/
def Scanner.classify (sc : Scanner) (c : Option Char) (pos : Position) (sc1 : Scanner) :
    Option Token × Scanner :=
  let in_quote := sc.in_double_quote || sc.in_single_quote
  match c with
  | some cc =>
    if cc = ' ' ∧ pos.col = 1 then
      sc1.create_indent pos
    else if cc = '"' ∧ in_quote = false then
      (some ⟨pos, TokenType.DoubleQuote⟩, { sc1 with in_double_quote := true })
    else if cc = '"' ∧ sc.in_double_quote = true then
      (some ⟨pos, TokenType.DoubleQuote⟩, { sc1 with in_double_quote := false })
    else if cc = singleQuoteChar ∧ in_quote = false then
      (some ⟨pos, TokenType.SingleQuote⟩, { sc1 with in_single_quote := true })
    else if cc = singleQuoteChar ∧ sc.in_single_quote = true then
      (some ⟨pos, TokenType.SingleQuote⟩, { sc1 with in_single_quote := false })
    else if cc = ':' ∧ in_quote = false then (some ⟨pos, TokenType.Colon⟩, sc1)
    else if cc = '?' ∧ in_quote = false then (some ⟨pos, TokenType.QuestionMark⟩, sc1)
    else if cc = '-' ∧ in_quote = false then (some ⟨pos, TokenType.Dash⟩, sc1)
    else if cc = '{' ∧ in_quote = false then (some ⟨pos, TokenType.LeftBraket⟩, sc1)
    else if cc = '}' ∧ in_quote = false then (some ⟨pos, TokenType.RightBraket⟩, sc1)
    else if cc = '[' ∧ in_quote = false then (some ⟨pos, TokenType.LeftSqBraket⟩, sc1)
    else if cc = ']' ∧ in_quote = false then (some ⟨pos, TokenType.RightSqBraket⟩, sc1)
    else if cc = '\n' then (some ⟨pos, TokenType.Newline⟩, sc1)
    else (none, sc1)
  | none => (none, sc1)

/-- `Scanner::next`: acquire a character, then classify it. -/
def Scanner.next (sc : Scanner) : Option Token × Scanner :=
  match sc.acquire with
  | (c, pos, sc1) => sc.classify c pos sc1

/-- Structural (fuel-indexed) twin of `Scanner.indentLoop`, reducible by the
kernel; `Stream.size` is always a sufficient fuel. -/
def Scanner.indentLoopFuel : Nat → Stream → Nat → Stream × Option Char × Nat
  | 0, st, count => (st, none, count)
  | fuel + 1, st, count =>
    match st.next with
    | (some c, st') =>
      if c = ' ' then Scanner.indentLoopFuel fuel st' (count + 1) else (st', some c, count)
    | (none, st') => (st', none, count)

/-- Executable twin of `create_indent` (same behaviour, proved below). -/
def Scanner.create_indentExec (sc : Scanner) (pos : Position) : Option Token × Scanner :=
  match Scanner.indentLoopFuel sc.stream.size sc.stream 1 with
  | (st, pushback, count) =>
    (some ⟨pos, TokenType.Spaces count⟩,
      { sc with stream := st, peeked_char := pushback })

/-- Executable twin of `classify` (same behaviour, proved below). -/
def Scanner.classifyExec (sc : Scanner) (c : Option Char) (pos : Position) (sc1 : Scanner) :
    Option Token × Scanner :=
  let in_quote := sc.in_double_quote || sc.in_single_quote
  match c with
  | some cc =>
    if cc = ' ' ∧ pos.col = 1 then
      sc1.create_indentExec pos
    else if cc = '"' ∧ in_quote = false then
      (some ⟨pos, TokenType.DoubleQuote⟩, { sc1 with in_double_quote := true })
    else if cc = '"' ∧ sc.in_double_quote = true then
      (some ⟨pos, TokenType.DoubleQuote⟩, { sc1 with in_double_quote := false })
    else if cc = singleQuoteChar ∧ in_quote = false then
      (some ⟨pos, TokenType.SingleQuote⟩, { sc1 with in_single_quote := true })
    else if cc = singleQuoteChar ∧ sc.in_single_quote = true then
      (some ⟨pos, TokenType.SingleQuote⟩, { sc1 with in_single_quote := false })
    else if cc = ':' ∧ in_quote = false then (some ⟨pos, TokenType.Colon⟩, sc1)
    else if cc = '?' ∧ in_quote = false then (some ⟨pos, TokenType.QuestionMark⟩, sc1)
    else if cc = '-' ∧ in_quote = false then (some ⟨pos, TokenType.Dash⟩, sc1)
    else if cc = '{' ∧ in_quote = false then (some ⟨pos, TokenType.LeftBraket⟩, sc1)
    else if cc = '}' ∧ in_quote = false then (some ⟨pos, TokenType.RightBraket⟩, sc1)
    else if cc = '[' ∧ in_quote = false then (some ⟨pos, TokenType.LeftSqBraket⟩, sc1)
    else if cc = ']' ∧ in_quote = false then (some ⟨pos, TokenType.RightSqBraket⟩, sc1)
    else if cc = '\n' then (some ⟨pos, TokenType.Newline⟩, sc1)
    else (none, sc1)
  | none => (none, sc1)

/-- Executable twin of `Scanner.next` (same behaviour, proved below). -/
def Scanner.nextExec (sc : Scanner) : Option Token × Scanner :=
  match sc.acquire with
  | (c, pos, sc1) => sc.classifyExec c pos sc1

/-- Iterate `Scanner.next` a fixed number of times, recording each result
(`none` entries included, mirroring a caller that keeps calling `next()`). -/
def Scanner.nextN : Nat → Scanner → List (Option Token) × Scanner
  | 0, sc => ([], sc)
  | n + 1, sc =>
    match sc.next with
    | (t, sc') =>
      match Scanner.nextN n sc' with
      | (ts, sc'') => (t :: ts, sc'')

/-- Executable twin of `nextN` (same behaviour, proved below). -/
def Scanner.nextNExec : Nat → Scanner → List (Option Token) × Scanner
  | 0, sc => ([], sc)
  | n + 1, sc =>
    match sc.nextExec with
    | (t, sc') =>
      match Scanner.nextNExec n sc' with
      | (ts, sc'') => (t :: ts, sc'')

/-- Reference definition following the spec's description of the indentation
scan: the number of consecutive space characters the stream produces from its
current state. -/
def Stream.spacesCount (s : Stream) : Nat :=
  match h : s.next with
  | (some c, s') => if c = ' ' then s'.spacesCount + 1 else 0
  | (none, _) => 0
termination_by s.size
decreasing_by exact (Stream.next_some_spec h).1

/-- Reference definition following the spec's description of the indentation
scan: the first non-space character the stream produces, if any comes before
end of input. -/
def Stream.firstNonSpace (s : Stream) : Option Char :=
  match h : s.next with
  | (some c, s') => if c = ' ' then s'.firstNonSpace else some c
  | (none, _) => none
termination_by s.size
decreasing_by exact (Stream.next_some_spec h).1

/-- Scanner states reachable from `Scanner::new` on input `d` by any sequence
of `next()` calls. -/
inductive Scanner.Reachable (d : List Char) : Scanner → Prop where
  | init : Scanner.Reachable d (Scanner.new d)
  | step : ∀ sc, Scanner.Reachable d sc → Scanner.Reachable d (Scanner.next sc).2

/-- Every character produced from an invariant-satisfying stream state carries
an offset at least the current one and 1-based line/column, and the offsets of
the produced sequence are non-decreasing. -/
theorem Stream.lexFuel_inv :
    ∀ (fuel : Nat) (s : Stream), s.Inv →
      (∀ p ∈ Stream.lexFuel fuel s, s.offset ≤ p.2.offset ∧ 1 ≤ p.2.line ∧ 1 ≤ p.2.col) ∧
        List.Chain' (fun a b => a.2.offset ≤ b.2.offset) (Stream.lexFuel fuel s) := by
  intro fuel
  induction fuel with
  | zero => intro s _; simp [Stream.lexFuel]
  | succ fuel ih =>
    intro s hi
    rcases hnext : s.next with ⟨oc, s'⟩
    rcases oc with _ | c
    · simp [Stream.lexFuel, hnext]
    · obtain ⟨hi', hoff⟩ := Stream.next_inv hnext hi
      obtain ⟨-, -, -, hlbt, hlbf⟩ := Stream.next_some_spec hnext
      have hcol : 1 ≤ s'.col := by
        cases hb : s.had_linebreak with
        | true =>
          rw [(hlbt hb).2]
        | false =>
          rw [(hlbf hb).2]
          omega
      obtain ⟨ihm, ihc⟩ := ih s' hi'
      have hlex : Stream.lexFuel (fuel + 1) s = (c, s'.get_position) :: Stream.lexFuel fuel s' := by
        simp [Stream.lexFuel, hnext]
      rw [hlex]
      constructor
      · intro p hp
        rcases List.mem_cons.mp hp with rfl | hp
        · exact ⟨hoff, hi'.1, hcol⟩
        · obtain ⟨h1, h2, h3⟩ := ihm p hp
          exact ⟨Nat.le_trans hoff h1, h2, h3⟩
      · rw [List.chain'_cons']
        refine ⟨?_, ihc⟩
        intro b hb
        have hmem : b ∈ Stream.lexFuel fuel s' := List.mem_of_mem_head? hb
        exact (ihm b hmem).1

theorem Scanner.indentLoop_eq_some {st st' : Stream} {c : Char} {count : Nat}
    (h : st.next = (some c, st')) :
    Scanner.indentLoop st count =
      if c = ' ' then Scanner.indentLoop st' (count + 1) else (st', some c, count) := by
  rw [Scanner.indentLoop.eq_def]
  split
  case h_1 c2 st2 heq =>
    rw [h] at heq
    injection heq with e1 e2
    injection e1 with e1
    subst e1
    subst e2
    rfl
  case h_2 st2 heq =>
    rw [h] at heq
    exact absurd heq (by simp)

theorem Scanner.indentLoop_eq_none {st st' : Stream} {count : Nat}
    (h : st.next = (none, st')) :
    Scanner.indentLoop st count = (st', none, count) := by
  rw [Scanner.indentLoop.eq_def]
  split
  case h_1 c2 st2 heq =>
    rw [h] at heq
    exact absurd heq (by simp)
  case h_2 st2 heq =>
    rw [h] at heq
    injection heq with e1 e2
    subst e2
    rfl

theorem Stream.spacesCount_eq_some {s s' : Stream} {c : Char}
    (h : s.next = (some c, s')) :
    s.spacesCount = if c = ' ' then s'.spacesCount + 1 else 0 := by
  rw [Stream.spacesCount.eq_def]
  split
  case h_1 c2 s2 heq =>
    rw [h] at heq
    injection heq with e1 e2
    injection e1 with e1
    subst e1
    subst e2
    rfl
  case h_2 s2 heq =>
    rw [h] at heq
    exact absurd heq (by simp)

theorem Stream.spacesCount_eq_none {s s' : Stream}
    (h : s.next = (none, s')) : s.spacesCount = 0 := by
  rw [Stream.spacesCount.eq_def]
  split
  case h_1 c2 s2 heq =>
    rw [h] at heq
    exact absurd heq (by simp)
  case h_2 s2 heq => rfl

theorem Stream.firstNonSpace_eq_some {s s' : Stream} {c : Char}
    (h : s.next = (some c, s')) :
    s.firstNonSpace = if c = ' ' then s'.firstNonSpace else some c := by
  rw [Stream.firstNonSpace.eq_def]
  split
  case h_1 c2 s2 heq =>
    rw [h] at heq
    injection heq with e1 e2
    injection e1 with e1
    subst e1
    subst e2
    rfl
  case h_2 s2 heq =>
    rw [h] at heq
    exact absurd heq (by simp)

theorem Stream.firstNonSpace_eq_none {s s' : Stream}
    (h : s.next = (none, s')) : s.firstNonSpace = none := by
  rw [Stream.firstNonSpace.eq_def]
  split
  case h_1 c2 s2 heq =>
    rw [h] at heq
    exact absurd heq (by simp)
  case h_2 s2 heq => rfl

/-- The source's indentation loop computes exactly what the spec describes: the
final count is the initial count plus the number of immediately following
spaces, and the pushed-back character is the first non-space one (none at end
of input). -/
theorem Scanner.indentLoop_spec (st : Stream) (count : Nat) :
    (Scanner.indentLoop st count).2.2 = count + st.spacesCount ∧
      (Scanner.indentLoop st count).2.1 = st.firstNonSpace := by
  induction st, count using Scanner.indentLoop.induct with
  | case1 st count st' hnext ih =>
    rw [Scanner.indentLoop_eq_some hnext, if_pos rfl, Stream.spacesCount_eq_some hnext,
      if_pos rfl, Stream.firstNonSpace_eq_some hnext, if_pos rfl]
    obtain ⟨ih1, ih2⟩ := ih
    constructor
    · rw [ih1]
      omega
    · exact ih2
  | case2 st count c st' hnext hc =>
    rw [Scanner.indentLoop_eq_some hnext, if_neg hc, Stream.spacesCount_eq_some hnext,
      if_neg hc, Stream.firstNonSpace_eq_some hnext, if_neg hc]
    simp
  | case3 st count st' hnext =>
    rw [Scanner.indentLoop_eq_none hnext, Stream.spacesCount_eq_none hnext,
      Stream.firstNonSpace_eq_none hnext]
    simp

/-- The acquisition step never touches the quote flags or the input reference. -/
theorem Scanner.acquire_fields (sc : Scanner) :
    ((sc.acquire).2.2).data = sc.data ∧
      ((sc.acquire).2.2).in_double_quote = sc.in_double_quote ∧
      ((sc.acquire).2.2).in_single_quote = sc.in_single_quote := by
  rcases sc with ⟨d, st, pc, dq, sq⟩
  cases pc with
  | some c => simp [Scanner.acquire]
  | none =>
    rcases hn : st.next with ⟨cc, st2⟩
    simp [Scanner.acquire, hn]

/-- `create_indent` in closed form. -/
theorem Scanner.create_indent_eq (sc : Scanner) (pos : Position) :
    sc.create_indent pos =
      (some ⟨pos, TokenType.Spaces (Scanner.indentLoop sc.stream 1).2.2⟩,
        { sc with stream := (Scanner.indentLoop sc.stream 1).1,
                  peeked_char := (Scanner.indentLoop sc.stream 1).2.1 }) := by
  unfold Scanner.create_indent
  rcases h : Scanner.indentLoop sc.stream 1 with ⟨st, pb, n⟩
  simp

/-- Reduce `Scanner.next` once the acquisition result is known. -/
theorem Scanner.next_classify {sc sc1 : Scanner} {c : Option Char} {pos : Position}
    (h : sc.acquire = (c, pos, sc1)) : sc.next = sc.classify c pos sc1 := by
  unfold Scanner.next
  rw [h]

/-- `Scanner.classify` on a present character, as a plain chain of conditionals. -/
theorem Scanner.classify_some (sc : Scanner) (cc : Char) (pos : Position) (sc1 : Scanner) :
    sc.classify (some cc) pos sc1 =
      (if cc = ' ' ∧ pos.col = 1 then
        sc1.create_indent pos
      else if cc = '"' ∧ (sc.in_double_quote || sc.in_single_quote) = false then
        (some ⟨pos, TokenType.DoubleQuote⟩, { sc1 with in_double_quote := true })
      else if cc = '"' ∧ sc.in_double_quote = true then
        (some ⟨pos, TokenType.DoubleQuote⟩, { sc1 with in_double_quote := false })
      else if cc = singleQuoteChar ∧ (sc.in_double_quote || sc.in_single_quote) = false then
        (some ⟨pos, TokenType.SingleQuote⟩, { sc1 with in_single_quote := true })
      else if cc = singleQuoteChar ∧ sc.in_single_quote = true then
        (some ⟨pos, TokenType.SingleQuote⟩, { sc1 with in_single_quote := false })
      else if cc = ':' ∧ (sc.in_double_quote || sc.in_single_quote) = false then
        (some ⟨pos, TokenType.Colon⟩, sc1)
      else if cc = '?' ∧ (sc.in_double_quote || sc.in_single_quote) = false then
        (some ⟨pos, TokenType.QuestionMark⟩, sc1)
      else if cc = '-' ∧ (sc.in_double_quote || sc.in_single_quote) = false then
        (some ⟨pos, TokenType.Dash⟩, sc1)
      else if cc = '{' ∧ (sc.in_double_quote || sc.in_single_quote) = false then
        (some ⟨pos, TokenType.LeftBraket⟩, sc1)
      else if cc = '}' ∧ (sc.in_double_quote || sc.in_single_quote) = false then
        (some ⟨pos, TokenType.RightBraket⟩, sc1)
      else if cc = '[' ∧ (sc.in_double_quote || sc.in_single_quote) = false then
        (some ⟨pos, TokenType.LeftSqBraket⟩, sc1)
      else if cc = ']' ∧ (sc.in_double_quote || sc.in_single_quote) = false then
        (some ⟨pos, TokenType.RightSqBraket⟩, sc1)
      else if cc = '\n' then (some ⟨pos, TokenType.Newline⟩, sc1)
      else (none, sc1)) := rfl

theorem Scanner.classify_none (sc : Scanner) (pos : Position) (sc1 : Scanner) :
    sc.classify none pos sc1 = (none, sc1) := rfl

/-- One `Scanner.next` step preserves mutual exclusion of the two quote flags:
a quote of one kind can only be opened when no quote at all is open. -/
theorem Scanner.next_flags_exclusive {sc : Scanner}
    (hex : (sc.in_double_quote && sc.in_single_quote) = false) :
    (((sc.next).2).in_double_quote && ((sc.next).2).in_single_quote) = false := by
  rcases ha : sc.acquire with ⟨oc, pos, sc1⟩
  have hf := Scanner.acquire_fields sc
  rw [ha] at hf
  obtain ⟨-, hdq, hsq⟩ := hf
  rw [Scanner.next_classify ha]
  rcases oc with _ | cc
  · rw [Scanner.classify_none]
    rw [hdq, hsq]
    exact hex
  · rw [Scanner.classify_some]
    by_cases h1 : cc = ' ' ∧ pos.col = 1
    · rw [if_pos h1, Scanner.create_indent_eq]
      show (sc1.in_double_quote && sc1.in_single_quote) = false
      rw [hdq, hsq]
      exact hex
    rw [if_neg h1]
    by_cases h2 : cc = '"' ∧ (sc.in_double_quote || sc.in_single_quote) = false
    · rw [if_pos h2]
      show (true && sc1.in_single_quote) = false
      rw [Bool.true_and, hsq]
      exact (Bool.or_eq_false_iff.mp h2.2).2
    rw [if_neg h2]
    by_cases h3 : cc = '"' ∧ sc.in_double_quote = true
    · rw [if_pos h3]
      show (false && sc1.in_single_quote) = false
      exact Bool.false_and sc1.in_single_quote
    rw [if_neg h3]
    by_cases h4 : cc = singleQuoteChar ∧ (sc.in_double_quote || sc.in_single_quote) = false
    · rw [if_pos h4]
      show (sc1.in_double_quote && true) = false
      rw [Bool.and_true, hdq]
      exact (Bool.or_eq_false_iff.mp h4.2).1
    rw [if_neg h4]
    by_cases h5 : cc = singleQuoteChar ∧ sc.in_single_quote = true
    · rw [if_pos h5]
      show (sc1.in_double_quote && false) = false
      exact Bool.and_false sc1.in_double_quote
    rw [if_neg h5]
    by_cases h6 : cc = ':' ∧ (sc.in_double_quote || sc.in_single_quote) = false
    · rw [if_pos h6]
      show (sc1.in_double_quote && sc1.in_single_quote) = false
      rw [hdq, hsq]
      exact hex
    rw [if_neg h6]
    by_cases h7 : cc = '?' ∧ (sc.in_double_quote || sc.in_single_quote) = false
    · rw [if_pos h7]
      show (sc1.in_double_quote && sc1.in_single_quote) = false
      rw [hdq, hsq]
      exact hex
    rw [if_neg h7]
    by_cases h8 : cc = '-' ∧ (sc.in_double_quote || sc.in_single_quote) = false
    · rw [if_pos h8]
      show (sc1.in_double_quote && sc1.in_single_quote) = false
      rw [hdq, hsq]
      exact hex
    rw [if_neg h8]
    by_cases h9 : cc = '{' ∧ (sc.in_double_quote || sc.in_single_quote) = false
    · rw [if_pos h9]
      show (sc1.in_double_quote && sc1.in_single_quote) = false
      rw [hdq, hsq]
      exact hex
    rw [if_neg h9]
    by_cases h10 : cc = '}' ∧ (sc.in_double_quote || sc.in_single_quote) = false
    · rw [if_pos h10]
      show (sc1.in_double_quote && sc1.in_single_quote) = false
      rw [hdq, hsq]
      exact hex
    rw [if_neg h10]
    by_cases h11 : cc = '[' ∧ (sc.in_double_quote || sc.in_single_quote) = false
    · rw [if_pos h11]
      show (sc1.in_double_quote && sc1.in_single_quote) = false
      rw [hdq, hsq]
      exact hex
    rw [if_neg h11]
    by_cases h12 : cc = ']' ∧ (sc.in_double_quote || sc.in_single_quote) = false
    · rw [if_pos h12]
      show (sc1.in_double_quote && sc1.in_single_quote) = false
      rw [hdq, hsq]
      exact hex
    rw [if_neg h12]
    by_cases h13 : cc = '\n'
    · rw [if_pos h13]
      show (sc1.in_double_quote && sc1.in_single_quote) = false
      rw [hdq, hsq]
      exact hex
    rw [if_neg h13]
    show (sc1.in_double_quote && sc1.in_single_quote) = false
    rw [hdq, hsq]
    exact hex

/-- Any `Spaces` token the scanner emits carries a strictly positive count. -/
theorem Scanner.next_spaces_positive {sc : Scanner} {t : Token} {n : Nat}
    (h : (sc.next).1 = some t) (hc : t.content = TokenType.Spaces n) : 1 ≤ n := by
  rcases ha : sc.acquire with ⟨oc, pos, sc1⟩
  rw [Scanner.next_classify ha] at h
  rcases oc with _ | cc
  · rw [Scanner.classify_none] at h
    simp at h
  · rw [Scanner.classify_some] at h
    by_cases h1 : cc = ' ' ∧ pos.col = 1
    · rw [if_pos h1, Scanner.create_indent_eq] at h
      have h' : some (⟨pos, TokenType.Spaces (Scanner.indentLoop sc1.stream 1).2.2⟩ : Token) = some t := h
      obtain rfl := Option.some.inj h'
      have h2 : TokenType.Spaces (Scanner.indentLoop sc1.stream 1).2.2 = TokenType.Spaces n := hc
      injection h2 with h3
      have hcount := (Scanner.indentLoop_spec sc1.stream 1).1
      omega
    rw [if_neg h1] at h
    by_cases h2 : cc = '"' ∧ (sc.in_double_quote || sc.in_single_quote) = false
    · rw [if_pos h2] at h
      have h' : some (⟨pos, TokenType.DoubleQuote⟩ : Token) = some t := h
      obtain rfl := Option.some.inj h'
      simp at hc
    rw [if_neg h2] at h
    by_cases h3 : cc = '"' ∧ sc.in_double_quote = true
    · rw [if_pos h3] at h
      have h' : some (⟨pos, TokenType.DoubleQuote⟩ : Token) = some t := h
      obtain rfl := Option.some.inj h'
      simp at hc
    rw [if_neg h3] at h
    by_cases h4 : cc = singleQuoteChar ∧ (sc.in_double_quote || sc.in_single_quote) = false
    · rw [if_pos h4] at h
      have h' : some (⟨pos, TokenType.SingleQuote⟩ : Token) = some t := h
      obtain rfl := Option.some.inj h'
      simp at hc
    rw [if_neg h4] at h
    by_cases h5 : cc = singleQuoteChar ∧ sc.in_single_quote = true
    · rw [if_pos h5] at h
      have h' : some (⟨pos, TokenType.SingleQuote⟩ : Token) = some t := h
      obtain rfl := Option.some.inj h'
      simp at hc
    rw [if_neg h5] at h
    by_cases h6 : cc = ':' ∧ (sc.in_double_quote || sc.in_single_quote) = false
    · rw [if_pos h6] at h
      have h' : some (⟨pos, TokenType.Colon⟩ : Token) = some t := h
      obtain rfl := Option.some.inj h'
      simp at hc
    rw [if_neg h6] at h
    by_cases h7 : cc = '?' ∧ (sc.in_double_quote || sc.in_single_quote) = false
    · rw [if_pos h7] at h
      have h' : some (⟨pos, TokenType.QuestionMark⟩ : Token) = some t := h
      obtain rfl := Option.some.inj h'
      simp at hc
    rw [if_neg h7] at h
    by_cases h8 : cc = '-' ∧ (sc.in_double_quote || sc.in_single_quote) = false
    · rw [if_pos h8] at h
      have h' : some (⟨pos, TokenType.Dash⟩ : Token) = some t := h
      obtain rfl := Option.some.inj h'
      simp at hc
    rw [if_neg h8] at h
    by_cases h9 : cc = '{' ∧ (sc.in_double_quote || sc.in_single_quote) = false
    · rw [if_pos h9] at h
      have h' : some (⟨pos, TokenType.LeftBraket⟩ : Token) = some t := h
      obtain rfl := Option.some.inj h'
      simp at hc
    rw [if_neg h9] at h
    by_cases h10 : cc = '}' ∧ (sc.in_double_quote || sc.in_single_quote) = false
    · rw [if_pos h10] at h
      have h' : some (⟨pos, TokenType.RightBraket⟩ : Token) = some t := h
      obtain rfl := Option.some.inj h'
      simp at hc
    rw [if_neg h10] at h
    by_cases h11 : cc = '[' ∧ (sc.in_double_quote || sc.in_single_quote) = false
    · rw [if_pos h11] at h
      have h' : some (⟨pos, TokenType.LeftSqBraket⟩ : Token) = some t := h
      obtain rfl := Option.some.inj h'
      simp at hc
    rw [if_neg h11] at h
    by_cases h12 : cc = ']' ∧ (sc.in_double_quote || sc.in_single_quote) = false
    · rw [if_pos h12] at h
      have h' : some (⟨pos, TokenType.RightSqBraket⟩ : Token) = some t := h
      obtain rfl := Option.some.inj h'
      simp at hc
    rw [if_neg h12] at h
    by_cases h13 : cc = '\n'
    · rw [if_pos h13] at h
      have h' : some (⟨pos, TokenType.Newline⟩ : Token) = some t := h
      obtain rfl := Option.some.inj h'
      simp at hc
    rw [if_neg h13] at h
    simp at h

theorem Stream.next_of_size_zero {s : Stream} (h : s.size = 0) : s.next = (none, s) := by
  rcases s with ⟨ci, col, off, line, peek, hlb⟩
  cases peek with
  | some ic => simp [Stream.size] at h
  | none =>
    cases ci with
    | nil => rfl
    | cons hd tl => simp [Stream.size] at h

theorem Scanner.indentLoop_eq_fuel :
    ∀ (fuel : Nat) (st : Stream) (count : Nat), st.size ≤ fuel →
      Scanner.indentLoop st count = Scanner.indentLoopFuel fuel st count := by
  intro fuel
  induction fuel with
  | zero =>
    intro st count hle
    have hz : st.size = 0 := Nat.le_zero.mp hle
    rw [Scanner.indentLoop_eq_none (Stream.next_of_size_zero hz)]
    rfl
  | succ fuel ih =>
    intro st count hle
    rcases hnext : st.next with ⟨oc, st'⟩
    rcases oc with _ | c
    · rw [Scanner.indentLoop_eq_none hnext]
      simp [Scanner.indentLoopFuel, hnext]
    · have hsz : st'.size ≤ fuel := by
        have := (Stream.next_some_spec hnext).1
        omega
      rw [Scanner.indentLoop_eq_some hnext]
      by_cases hsp : c = ' '
      · rw [if_pos hsp]
        rw [ih st' (count + 1) hsz]
        subst hsp
        simp [Scanner.indentLoopFuel, hnext]
      · rw [if_neg hsp]
        simp [Scanner.indentLoopFuel, hnext, hsp]

theorem Scanner.create_indent_eq_exec (sc : Scanner) (pos : Position) :
    sc.create_indent pos = sc.create_indentExec pos := by
  unfold Scanner.create_indent Scanner.create_indentExec
  rw [Scanner.indentLoop_eq_fuel sc.stream.size sc.stream 1 (Nat.le_refl _)]

theorem Scanner.classifyExec_some (sc : Scanner) (cc : Char) (pos : Position) (sc1 : Scanner) :
    sc.classifyExec (some cc) pos sc1 =
      (if cc = ' ' ∧ pos.col = 1 then
        sc1.create_indentExec pos
      else if cc = '"' ∧ (sc.in_double_quote || sc.in_single_quote) = false then
        (some ⟨pos, TokenType.DoubleQuote⟩, { sc1 with in_double_quote := true })
      else if cc = '"' ∧ sc.in_double_quote = true then
        (some ⟨pos, TokenType.DoubleQuote⟩, { sc1 with in_double_quote := false })
      else if cc = singleQuoteChar ∧ (sc.in_double_quote || sc.in_single_quote) = false then
        (some ⟨pos, TokenType.SingleQuote⟩, { sc1 with in_single_quote := true })
      else if cc = singleQuoteChar ∧ sc.in_single_quote = true then
        (some ⟨pos, TokenType.SingleQuote⟩, { sc1 with in_single_quote := false })
      else if cc = ':' ∧ (sc.in_double_quote || sc.in_single_quote) = false then
        (some ⟨pos, TokenType.Colon⟩, sc1)
      else if cc = '?' ∧ (sc.in_double_quote || sc.in_single_quote) = false then
        (some ⟨pos, TokenType.QuestionMark⟩, sc1)
      else if cc = '-' ∧ (sc.in_double_quote || sc.in_single_quote) = false then
        (some ⟨pos, TokenType.Dash⟩, sc1)
      else if cc = '{' ∧ (sc.in_double_quote || sc.in_single_quote) = false then
        (some ⟨pos, TokenType.LeftBraket⟩, sc1)
      else if cc = '}' ∧ (sc.in_double_quote || sc.in_single_quote) = false then
        (some ⟨pos, TokenType.RightBraket⟩, sc1)
      else if cc = '[' ∧ (sc.in_double_quote || sc.in_single_quote) = false then
        (some ⟨pos, TokenType.LeftSqBraket⟩, sc1)
      else if cc = ']' ∧ (sc.in_double_quote || sc.in_single_quote) = false then
        (some ⟨pos, TokenType.RightSqBraket⟩, sc1)
      else if cc = '\n' then (some ⟨pos, TokenType.Newline⟩, sc1)
      else (none, sc1)) := rfl

theorem Scanner.classify_eq_exec (sc : Scanner) (c : Option Char) (pos : Position)
    (sc1 : Scanner) : sc.classify c pos sc1 = sc.classifyExec c pos sc1 := by
  cases c with
  | none => rfl
  | some cc =>
    rw [Scanner.classify_some, Scanner.classifyExec_some]
    by_cases h1 : cc = ' ' ∧ pos.col = 1
    · rw [if_pos h1, if_pos h1, Scanner.create_indent_eq_exec]
    · rw [if_neg h1, if_neg h1]

/-- `Scanner.next` agrees with its kernel-computable twin on every state. -/
theorem Scanner.next_eq_exec (sc : Scanner) : sc.next = sc.nextExec := by
  unfold Scanner.next Scanner.nextExec
  rcases ha : sc.acquire with ⟨c, pos, sc1⟩
  exact Scanner.classify_eq_exec sc c pos sc1

theorem Scanner.nextN_eq_exec : ∀ (n : Nat) (sc : Scanner),
    Scanner.nextN n sc = Scanner.nextNExec n sc := by
  intro n
  induction n with
  | zero => intro sc; rfl
  | succ n ih =>
    intro sc
    simp only [Scanner.nextN, Scanner.nextNExec, Scanner.next_eq_exec, ih]

/-- A `none` from `Stream.next` leaves the stream untouched. -/
theorem Stream.next_none_fix {s : Stream} (h : (s.next).1 = none) :
    s.next = (none, s) := by
  unfold Stream.next at h ⊢
  split at h
  case h_1 i c0 s1 heq =>
    exfalso
    split at h
    all_goals try split at h
    all_goals try split at h
    all_goals simp at h
  case h_2 s1 heq =>
    obtain ⟨rfl, -⟩ := Stream.next_internal_none heq
    rfl

/-- Inside any quoted span, every character other than a space, the two quote
delimiters and the newline falls through the classification to `none` with no
state change beyond the acquisition itself. -/
theorem Scanner.classify_in_quote_fallthrough {sc sc1 : Scanner} {pos : Position} {cc : Char}
    (hq : (sc.in_double_quote || sc.in_single_quote) = true)
    (h1 : cc ≠ ' ') (h2 : cc ≠ '"') (h3 : cc ≠ singleQuoteChar) (h4 : cc ≠ '\n') :
    sc.classify (some cc) pos sc1 = (none, sc1) := by
  have hqf : ∀ P : Prop, ¬(P ∧ (sc.in_double_quote || sc.in_single_quote) = false) := by
    intro P hx
    rw [hq] at hx
    exact absurd hx.2 (by decide)
  rw [Scanner.classify_some]
  rw [if_neg (fun hx => h1 hx.1), if_neg (fun hx => h2 hx.1), if_neg (fun hx => h2 hx.1),
    if_neg (fun hx => h3 hx.1), if_neg (fun hx => h3 hx.1),
    if_neg (hqf _), if_neg (hqf _), if_neg (hqf _), if_neg (hqf _), if_neg (hqf _),
    if_neg (hqf _), if_neg (hqf _), if_neg h4]

/-- C1: `Stream.next` collapses each of the line endings `\n`, `\r` and `\r\n`
into a single logical `'\n'` with identical resulting positions — lexing
`"AB\n"`, `"AB\r"` and `"AB\r\n"` each yields exactly `['A','B','\n']` at
positions `(0,1,1) (1,1,2) (2,1,3)` — and `Stream.next` never yields a `'\r'`
character for any input. -/
theorem c1_line_ending_normalization :
    streamLex "AB\n" = [('A', ⟨0,1,1⟩), ('B', ⟨1,1,2⟩), ('\n', ⟨2,1,3⟩)] ∧
      streamLex "AB\r" = [('A', ⟨0,1,1⟩), ('B', ⟨1,1,2⟩), ('\n', ⟨2,1,3⟩)] ∧
      streamLex "AB\r\n" = [('A', ⟨0,1,1⟩), ('B', ⟨1,1,2⟩), ('\n', ⟨2,1,3⟩)] ∧
      ∀ (s s' : Stream) (c : Char), s.next = (some c, s') → c ≠ '\r' := by
  refine ⟨by decide, by decide, by decide, ?_⟩
  intro s s' c h
  exact (Stream.next_some_spec h).2.1

/-- Witness for C1: its universally quantified conjunct applied at a concrete
stream. -/
theorem c1_line_ending_normalization_witness : 'A' ≠ '\r' :=
  c1_line_ending_normalization.2.2.2 (Stream.new ('A' :: []))
    ((Stream.new ('A' :: [])).next).2 'A' (by decide)

/-- C2 (counterexample): the claim "for both Stream and Scanner, once next()
has returned no value every subsequent call also returns no value" is false for
the Scanner: on input `"x:"` the first call returns nothing (the unhandled
character `'x'`), yet the second call returns a `Colon` token. -/
theorem c2_claim_counterexample :
    ((Scanner.new ('x' :: ':' :: [])).next).1 = none ∧
      ((((Scanner.new ('x' :: ':' :: [])).next).2).next).1 =
        some ⟨⟨1, 1, 2⟩, TokenType.Colon⟩ := by
  decide

/-- C2 (amended): a `none` from the Stream is always terminal — the state is
unchanged, so every subsequent call returns `none` again — and a Scanner `none`
arising at true end of input (empty pushback slot and exhausted stream) is
likewise terminal; only a Scanner `none` caused by an unhandled character need
not be. -/
theorem c2_terminal_none :
    (∀ s : Stream, (s.next).1 = none → s.next = (none, s)) ∧
      ∀ sc : Scanner, sc.peeked_char = none → ((sc.stream).next).1 = none →
        sc.next = (none, sc) := by
  constructor
  · intro s h
    exact Stream.next_none_fix h
  · intro sc hpc hsn
    have hs := Stream.next_none_fix hsn
    have ha : sc.acquire = (none, sc.stream.get_position, sc) := by
      simp [Scanner.acquire, hpc, hs]
      rw [← hpc]
    rw [Scanner.next_classify ha, Scanner.classify_none]

/-- Witness for C2's amended statement: both parts applied at empty inputs. -/
theorem c2_terminal_none_witness :
    (Stream.new ([] : List Char)).next = (none, Stream.new ([] : List Char)) ∧
      (Scanner.new ([] : List Char)).next = (none, Scanner.new ([] : List Char)) :=
  ⟨c2_terminal_none.1 (Stream.new []) (by decide),
    c2_terminal_none.2 (Scanner.new []) rfl (by decide)⟩

/-- C3: every emitted character advances line/col by exactly one scalar value —
if the previous emission was a line break the line increments and the column
resets to 1, otherwise the column increments — and the recorded offset is the
true byte offset of the raw character consumed; concretely, `"😊 Bye!"` starts
`('😊',0,1,1) (' ',4,1,2) ('B',5,1,3)` and in `"😊\r\n😊"` the second emoji is
at `(offset 6, line 2, col 1)`. -/
theorem c3_position_advance :
    streamLex "😊 Bye!" =
      [('😊', ⟨0,1,1⟩), (' ', ⟨4,1,2⟩), ('B', ⟨5,1,3⟩), ('y', ⟨6,1,4⟩),
        ('e', ⟨7,1,5⟩), ('!', ⟨8,1,6⟩)] ∧
      streamLex "😊\r\n😊" = [('😊', ⟨0,1,1⟩), ('\n', ⟨4,1,2⟩), ('😊', ⟨6,2,1⟩)] ∧
      (∀ (s s' : Stream) (c : Char), s.next = (some c, s') →
        (s.had_linebreak = true → s'.line = s.line + 1 ∧ s'.col = 1) ∧
        (s.had_linebreak = false → s'.line = s.line ∧ s'.col = s.col + 1)) ∧
      ∀ (s s' s1 : Stream) (c c0 : Char) (i : Nat), s.next = (some c, s') →
        s.next_internal = (some (i, c0), s1) → s'.offset = i := by
  refine ⟨by decide, by decide, ?_, ?_⟩
  · intro s s' c h
    exact ⟨(Stream.next_some_spec h).2.2.2.1, (Stream.next_some_spec h).2.2.2.2⟩
  · intro s s' s1 c c0 i h hint
    exact (Stream.next_some_spec h).2.2.1 i c0 s1 hint

/-- Witness for C3: the position-advance conjunct applied at a concrete
stream whose pending-line-break flag is clear. -/
theorem c3_position_advance_witness :
    ((Stream.new ('A' :: [])).next).2.line = 1 ∧
      ((Stream.new ('A' :: [])).next).2.col = 0 + 1 :=
  (c3_position_advance.2.2.1 (Stream.new ('A' :: []))
    ((Stream.new ('A' :: [])).next).2 'A' (by decide)).2 rfl

/-- C4: inside a quoted span the structural punctuation characters produce no
token, the open quote's own delimiter always fires to close it (scanning
`"`...`"` yields exactly two `DoubleQuote` tokens with `in_double_quote`
toggled on at the first and off at the second), and `'\n'` yields a `Newline`
token even inside a quoted span. -/
theorem c4_quote_span :
    ((Scanner.nextN 4 (Scanner.new ('"' :: ':' :: '"' :: []))).1 =
        [some ⟨⟨0,1,1⟩, TokenType.DoubleQuote⟩, none,
          some ⟨⟨2,1,3⟩, TokenType.DoubleQuote⟩, none] ∧
      ((Scanner.nextN 1 (Scanner.new ('"' :: ':' :: '"' :: []))).2).in_double_quote = true ∧
      ((Scanner.nextN 2 (Scanner.new ('"' :: ':' :: '"' :: []))).2).in_double_quote = true ∧
      ((Scanner.nextN 3 (Scanner.new ('"' :: ':' :: '"' :: []))).2).in_double_quote = false) ∧
      (∀ (sc sc1 : Scanner) (pos : Position) (c : Char),
        (sc.in_double_quote || sc.in_single_quote) = true →
        sc.acquire = (some c, pos, sc1) →
        c ∈ [':', '?', '-', '{', '}', '[', ']'] → (sc.next).1 = none) ∧
      (∀ (sc sc1 : Scanner) (pos : Position), sc.in_double_quote = true →
        sc.acquire = (some '"', pos, sc1) →
        sc.next = (some ⟨pos, TokenType.DoubleQuote⟩, { sc1 with in_double_quote := false })) ∧
      (∀ (sc sc1 : Scanner) (pos : Position), sc.in_single_quote = true →
        sc.acquire = (some singleQuoteChar, pos, sc1) →
        sc.next = (some ⟨pos, TokenType.SingleQuote⟩, { sc1 with in_single_quote := false })) ∧
      ∀ (sc sc1 : Scanner) (pos : Position), sc.acquire = (some '\n', pos, sc1) →
        (sc.next).1 = some ⟨pos, TokenType.Newline⟩ := by
  refine ⟨by decide, ?_, ?_, ?_, ?_⟩
  · intro sc sc1 pos c hq ha hmem
    fin_cases hmem <;>
      rw [Scanner.next_classify ha,
        Scanner.classify_in_quote_fallthrough hq (by decide) (by decide) (by decide) (by decide)]
  · intro sc sc1 pos hdq ha
    rw [Scanner.next_classify ha, Scanner.classify_some]
    rw [if_neg (fun hx => absurd hx.1 (by decide)),
      if_neg (fun hx => by rw [hdq] at hx; simp at hx),
      if_pos ⟨rfl, hdq⟩]
  · intro sc sc1 pos hsq ha
    rw [Scanner.next_classify ha, Scanner.classify_some]
    rw [if_neg (fun hx => absurd hx.1 (by decide)),
      if_neg (fun hx => absurd hx.1 (by decide)),
      if_neg (fun hx => absurd hx.1 (by decide)),
      if_neg (fun hx => by rw [hsq] at hx; simp at hx),
      if_pos ⟨rfl, hsq⟩]
  · intro sc sc1 pos ha
    rw [Scanner.next_classify ha]
    rfl

/-- Witness for C4: the newline conjunct applied at a concrete scanner. -/
theorem c4_quote_span_witness :
    ((Scanner.new ('\n' :: [])).next).1 = some ⟨⟨0,1,1⟩, TokenType.Newline⟩ :=
  c4_quote_span.2.2.2.2 (Scanner.new ('\n' :: []))
    ((Scanner.new ('\n' :: [])).acquire).2.2 ⟨0,1,1⟩ (by decide)

/-- C5: a space at column 1 triggers the indentation scan — counting that space
plus every immediately following space pulled from the stream, stopping at the
first non-space character (pushed back into the one-slot buffer) or end of
input — and emits `Spaces(count)` at the first space's position; a space not at
column 1 never produces a `Spaces` token. -/
theorem c5_indentation :
    (Scanner.nextN 3 (Scanner.new (' ' :: ' ' :: ' ' :: ':' :: []))).1 =
      [some ⟨⟨0,1,1⟩, TokenType.Spaces 3⟩, some ⟨⟨3,1,4⟩, TokenType.Colon⟩, none] ∧
      (Scanner.nextN 5 (Scanner.new (':' :: ' ' :: ' ' :: ':' :: []))).1 =
        [some ⟨⟨0,1,1⟩, TokenType.Colon⟩, none, none,
          some ⟨⟨3,1,4⟩, TokenType.Colon⟩, none] ∧
      (∀ (sc sc1 : Scanner) (pos : Position), sc.acquire = (some ' ', pos, sc1) →
        pos.col ≠ 1 → (sc.next).1 = none) ∧
      ∀ (sc sc1 : Scanner) (pos : Position), sc.acquire = (some ' ', pos, sc1) →
        pos.col = 1 →
        (sc.next).1 = some ⟨pos, TokenType.Spaces (1 + sc1.stream.spacesCount)⟩ ∧
          ((sc.next).2).peeked_char = sc1.stream.firstNonSpace := by
  refine ⟨?_, ?_, ?_, ?_⟩
  · rw [Scanner.nextN_eq_exec]
    decide
  · rw [Scanner.nextN_eq_exec]
    decide
  · intro sc sc1 pos ha hcol
    rw [Scanner.next_classify ha, Scanner.classify_some]
    rw [if_neg (fun hx => hcol hx.2),
      if_neg (fun hx => absurd hx.1 (by decide)), if_neg (fun hx => absurd hx.1 (by decide)),
      if_neg (fun hx => absurd hx.1 (by decide)), if_neg (fun hx => absurd hx.1 (by decide)),
      if_neg (fun hx => absurd hx.1 (by decide)), if_neg (fun hx => absurd hx.1 (by decide)),
      if_neg (fun hx => absurd hx.1 (by decide)), if_neg (fun hx => absurd hx.1 (by decide)),
      if_neg (fun hx => absurd hx.1 (by decide)), if_neg (fun hx => absurd hx.1 (by decide)),
      if_neg (fun hx => absurd hx.1 (by decide)), if_neg (by decide)]
  · intro sc sc1 pos ha hcol
    rw [Scanner.next_classify ha, Scanner.classify_some, if_pos ⟨rfl, hcol⟩,
      Scanner.create_indent_eq]
    obtain ⟨e1, e2⟩ := Scanner.indentLoop_spec sc1.stream 1
    constructor
    · show some (⟨pos, TokenType.Spaces (Scanner.indentLoop sc1.stream 1).2.2⟩ : Token) =
        some ⟨pos, TokenType.Spaces (1 + sc1.stream.spacesCount)⟩
      rw [e1]
    · show (Scanner.indentLoop sc1.stream 1).2.1 = sc1.stream.firstNonSpace
      exact e2

/-- Witness for C5: the indentation-scan conjunct applied at a concrete
scanner whose first character is a space at column 1. -/
theorem c5_indentation_witness :
    ((Scanner.new (' ' :: [])).next).1 =
        some ⟨⟨0,1,1⟩, TokenType.Spaces
          (1 + (((Scanner.new (' ' :: [])).acquire).2.2).stream.spacesCount)⟩ ∧
      (((Scanner.new (' ' :: [])).next).2).peeked_char =
        (((Scanner.new (' ' :: [])).acquire).2.2).stream.firstNonSpace :=
  c5_indentation.2.2.2 (Scanner.new (' ' :: []))
    ((Scanner.new (' ' :: [])).acquire).2.2 ⟨0,1,1⟩ (by decide) rfl

/-- C6: in every Scanner state reachable from the initial state by any sequence
of `next()` calls, at most one of `in_double_quote` and `in_single_quote` is
true. -/
theorem c6_quote_flags_exclusive (d : List Char) (sc : Scanner)
    (h : Scanner.Reachable d sc) :
    (sc.in_double_quote && sc.in_single_quote) = false := by
  induction h with
  | init => rfl
  | step sc0 h0 ih => exact Scanner.next_flags_exclusive ih

/-- Witness for C6: the invariant at a state one step from the initial one. -/
theorem c6_quote_flags_exclusive_witness :
    ((((Scanner.new ('"' :: [])).next).2).in_double_quote &&
      (((Scanner.new ('"' :: [])).next).2).in_single_quote) = false :=
  c6_quote_flags_exclusive ('"' :: []) (((Scanner.new ('"' :: [])).next).2)
    (Scanner.Reachable.step (Scanner.new ('"' :: [])) Scanner.Reachable.init)

/-- C7: for every input, the sequence of positions the Stream produces has
non-decreasing offsets, and every produced line/column is a valid 1-based
cursor position. -/
theorem c7_stream_positions (data : List Char) (fuel : Nat) :
    List.Chain' (fun a b => a.2.offset ≤ b.2.offset)
        (Stream.lexFuel fuel (Stream.new data)) ∧
      ∀ p ∈ Stream.lexFuel fuel (Stream.new data), 1 ≤ p.2.line ∧ 1 ≤ p.2.col := by
  obtain ⟨hm, hc⟩ := Stream.lexFuel_inv fuel (Stream.new data) (Stream.inv_new data)
  exact ⟨hc, fun p hp => ⟨(hm p hp).2.1, (hm p hp).2.2⟩⟩

/-- Witness for C7: the per-character bound applied to a concrete element of a
concrete lex. -/
theorem c7_stream_positions_witness :
    List.Chain' (fun a b => a.2.offset ≤ b.2.offset)
        (Stream.lexFuel 2 (Stream.new ('A' :: []))) ∧
      1 ≤ (Position.mk 0 1 1).line ∧ 1 ≤ (Position.mk 0 1 1).col :=
  ⟨(c7_stream_positions ('A' :: []) 2).1,
    (c7_stream_positions ('A' :: []) 2).2 ('A', ⟨0,1,1⟩) (by decide)⟩

/-- C8: before any character has been produced, `get_position` returns the
sentinel `offset 0, line 1, col 0`; after any character has been produced the
line is at least 1.  (`get_position` is embedded as a pure projection, so it
trivially has no side effects.) -/
theorem c8_sentinel_position (data : List Char) :
    (Stream.new data).get_position = ⟨0, 1, 0⟩ ∧
      ∀ fuel, ∀ p ∈ Stream.lexFuel fuel (Stream.new data), 1 ≤ p.2.line := by
  refine ⟨rfl, ?_⟩
  intro fuel p hp
  exact ((Stream.lexFuel_inv fuel (Stream.new data) (Stream.inv_new data)).1 p hp).2.1

/-- Witness for C8: both parts at a concrete input. -/
theorem c8_sentinel_position_witness :
    (Stream.new ('B' :: [])).get_position = ⟨0, 1, 0⟩ ∧
      1 ≤ (Position.mk 0 1 1).line :=
  ⟨(c8_sentinel_position ('B' :: [])).1,
    (c8_sentinel_position ('B' :: [])).2 2 ('B', ⟨0,1,1⟩) (by decide)⟩

/-- C9: every `Spaces(count)` token the Scanner emits has `count ≥ 1`; a
`Spaces(0)` token is never produced. -/
theorem c9_spaces_positive (sc : Scanner) (t : Token) (n : Nat)
    (h : (sc.next).1 = some t) (hc : t.content = TokenType.Spaces n) : 1 ≤ n :=
  Scanner.next_spaces_positive h hc

/-- Witness for C9: applied to the `Spaces 1` token scanned from `" "`. -/
theorem c9_spaces_positive_witness : 1 ≤ 1 :=
  c9_spaces_positive (Scanner.new (' ' :: [])) ⟨⟨0,1,1⟩, TokenType.Spaces 1⟩ 1
    (by rw [Scanner.next_eq_exec]; decide) rfl

/-- C10: with a single-quoted span open, a `'"'` matches no classification rule
and falls through to the unhandled-character case — no token, both quote flags
unchanged — and symmetrically for `'` inside a double-quoted span. -/
theorem c10_mismatched_quote_char :
    (∀ (sc sc1 : Scanner) (pos : Position), sc.in_single_quote = true →
      sc.in_double_quote = false → sc.acquire = (some '"', pos, sc1) →
      (sc.next).1 = none ∧ ((sc.next).2).in_double_quote = false ∧
        ((sc.next).2).in_single_quote = true) ∧
      ∀ (sc sc1 : Scanner) (pos : Position), sc.in_double_quote = true →
        sc.in_single_quote = false → sc.acquire = (some singleQuoteChar, pos, sc1) →
        (sc.next).1 = none ∧ ((sc.next).2).in_double_quote = true ∧
          ((sc.next).2).in_single_quote = false := by
  constructor
  · intro sc sc1 pos hsq hdq ha
    have hf := Scanner.acquire_fields sc
    rw [ha] at hf
    obtain ⟨-, hdq1, hsq1⟩ := hf
    rw [Scanner.next_classify ha, Scanner.classify_some]
    rw [if_neg (fun hx => absurd hx.1 (by decide)),
      if_neg (fun hx => by rw [hsq] at hx; simp at hx),
      if_neg (fun hx => by rw [hdq] at hx; exact absurd hx.2 (by decide)),
      if_neg (fun hx => absurd hx.1 (by decide)), if_neg (fun hx => absurd hx.1 (by decide)),
      if_neg (fun hx => absurd hx.1 (by decide)), if_neg (fun hx => absurd hx.1 (by decide)),
      if_neg (fun hx => absurd hx.1 (by decide)), if_neg (fun hx => absurd hx.1 (by decide)),
      if_neg (fun hx => absurd hx.1 (by decide)), if_neg (fun hx => absurd hx.1 (by decide)),
      if_neg (fun hx => absurd hx.1 (by decide)), if_neg (by decide)]
    refine ⟨rfl, ?_, ?_⟩
    · show sc1.in_double_quote = false
      rw [hdq1]
      exact hdq
    · show sc1.in_single_quote = true
      rw [hsq1]
      exact hsq
  · intro sc sc1 pos hdq hsq ha
    have hf := Scanner.acquire_fields sc
    rw [ha] at hf
    obtain ⟨-, hdq1, hsq1⟩ := hf
    rw [Scanner.next_classify ha, Scanner.classify_some]
    rw [if_neg (fun hx => absurd hx.1 (by decide)),
      if_neg (fun hx => absurd hx.1 (by decide)), if_neg (fun hx => absurd hx.1 (by decide)),
      if_neg (fun hx => by rw [hdq] at hx; simp at hx),
      if_neg (fun hx => by rw [hsq] at hx; exact absurd hx.2 (by decide)),
      if_neg (fun hx => absurd hx.1 (by decide)), if_neg (fun hx => absurd hx.1 (by decide)),
      if_neg (fun hx => absurd hx.1 (by decide)), if_neg (fun hx => absurd hx.1 (by decide)),
      if_neg (fun hx => absurd hx.1 (by decide)), if_neg (fun hx => absurd hx.1 (by decide)),
      if_neg (fun hx => absurd hx.1 (by decide)), if_neg (by decide)]
    refine ⟨rfl, ?_, ?_⟩
    · show sc1.in_double_quote = true
      rw [hdq1]
      exact hdq
    · show sc1.in_single_quote = false
      rw [hsq1]
      exact hsq

/-- Witness for C10: a `'"'` seen while a single quote is open yields no token
and leaves the flags alone, at a concrete scanner state. -/
theorem c10_mismatched_quote_char_witness :
    ((Scanner.mk ('"' :: []) (Stream.new ('"' :: [])) none false true).next).1 = none ∧
      (((Scanner.mk ('"' :: []) (Stream.new ('"' :: [])) none false true).next).2).in_double_quote
        = false ∧
      (((Scanner.mk ('"' :: []) (Stream.new ('"' :: [])) none false true).next).2).in_single_quote
        = true :=
  c10_mismatched_quote_char.1 (Scanner.mk ('"' :: []) (Stream.new ('"' :: [])) none false true)
    (((Scanner.mk ('"' :: []) (Stream.new ('"' :: [])) none false true).acquire).2.2) ⟨0,1,1⟩
    rfl rfl (by decide)

end OasLint
